import Mathlib

/-!
Shallow embedding of the library-management application (`src/app.py`).

Modelling conventions:
- Timestamps (`datetime.now()` results) are `Nat` ticks, passed explicitly to
  each operation that reads the clock; `timedelta(days=14)` is the constant
  `fourteenDays` in the same unit.
- Python dicts keyed by `str(id)` are modelled as association lists keyed by
  the `Nat` id itself (`str` is injective on the non-negative integers that
  occur as ids, so nothing is lost).
- Python dict assignment `d[k] = v` is `setk` (replace the first binding of
  `k`, or append a fresh binding), and `d.get(k)` is `getk`.
- The JSON store file is modelled in a later section (`JValue`, `FileState`).
-/

namespace LibraryApp

/-- `timedelta(days=14)` in clock ticks. -/
def fourteenDays : Nat := 14

/-- One entry of a member's `borrowed_books` list
(`{'book_id': ..., 'borrowed_date': ..., 'due_date': ...}`). -/
structure BorrowRec where
  book_id : Nat
  borrowed_date : Nat
  due_date : Nat
deriving Repr, DecidableEq

/-- The `Member` entity (class `Member(Person)` in `app.py`): id, name, email,
`_created_at` set from the clock at construction, `_borrowed_books`,
`_max_books = 3`. -/
structure Member where
  person_id : Nat
  name : String
  email : String
  created_at : Nat
  borrowed_books : List BorrowRec
  max_books : Nat
deriving Repr, DecidableEq

/-- `Member.__init__`: empty borrowed list, limit 3. -/
def Member.init (member_id : Nat) (name email : String) (now : Nat) : Member :=
  ⟨member_id, name, email, now, [], 3⟩

/-- `Member.can_borrow`: `len(self._borrowed_books) < self._max_books`. -/
def Member.can_borrow (m : Member) : Bool :=
  m.borrowed_books.length < m.max_books

/-- `Member.borrow_book`: appends a borrow record if `can_borrow()`.  The
source reads the clock twice — once for `borrowed_date` (`t1`) and once, via a
second `datetime.now()` call, for `due_date` (`t2 + fourteenDays`). -/
def Member.borrow_book (m : Member) (book_id t1 t2 : Nat) : Member × Bool :=
  if m.can_borrow then
    ({ m with borrowed_books :=
        m.borrowed_books ++ [⟨book_id, t1, t2 + fourteenDays⟩] }, true)
  else (m, false)

/-- `Member.return_book`: keeps the entries whose `book_id` differs. -/
def Member.return_book (m : Member) (book_id : Nat) : Member :=
  { m with borrowed_books :=
      m.borrowed_books.filter (fun b => b.book_id != book_id) }

/-- The stored member dict produced by `Member.to_dict`
(`get_info()` fields plus `borrowed_books` and `can_borrow_more`). -/
structure MemberRec where
  id : Nat
  name : String
  email : String
  created_at : Nat
  borrowed_books : List BorrowRec
  can_borrow_more : Bool
deriving Repr, DecidableEq

/-- `Member.to_dict`. -/
def Member.to_dict (m : Member) : MemberRec :=
  ⟨m.person_id, m.name, m.email, m.created_at, m.borrowed_books, m.can_borrow⟩

/-- The `Book` entity. `__init__` sets `_is_available = True`,
`_borrowed_by = None`, `_added_date = datetime.now()`. -/
structure Book where
  book_id : Nat
  title : String
  author : String
  isbn : String
  category : String
  is_available : Bool
  borrowed_by : Option Nat
  added_date : Nat
deriving Repr, DecidableEq

/-- `Book.__init__`. -/
def Book.init (book_id : Nat) (title author isbn category : String)
    (now : Nat) : Book :=
  ⟨book_id, title, author, isbn, category, true, none, now⟩

/-- `Book.borrow`: succeeds only when available. -/
def Book.borrow (b : Book) (member_id : Nat) : Book × Bool :=
  if b.is_available then
    ({ b with is_available := false, borrowed_by := some member_id }, true)
  else (b, false)

/-- `Book.return_book`: unconditionally makes the book available. -/
def Book.return_book (b : Book) : Book :=
  { b with is_available := true, borrowed_by := none }

/-- The stored book dict produced by `Book.to_dict`. -/
structure BookRec where
  id : Nat
  title : String
  author : String
  isbn : String
  category : String
  is_available : Bool
  borrowed_by : Option Nat
  added_date : Nat
deriving Repr, DecidableEq

/-- `Book.to_dict`. -/
def Book.to_dict (b : Book) : BookRec :=
  ⟨b.book_id, b.title, b.author, b.isbn, b.category, b.is_available,
    b.borrowed_by, b.added_date⟩

/-- One transaction log record `{'type', 'member_id', 'book_id', 'date'}`. -/
structure TransRec where
  type : String
  member_id : Nat
  book_id : Nat
  date : Nat
deriving Repr, DecidableEq

/-- The store document `{'books': {...}, 'members': {...}, 'transactions': [...]}`. -/
structure Document where
  books : List (Nat × BookRec)
  members : List (Nat × MemberRec)
  transactions : List TransRec
deriving Repr, DecidableEq

/-- `d.get(k)` on a Python dict modelled as an association list. -/
def getk {α : Type} : List (Nat × α) → Nat → Option α
  | [], _ => none
  | (k', v) :: rest, k => if k = k' then some v else getk rest k

/-- `d[k] = v` on a Python dict: replace the binding if present, else append. -/
def setk {α : Type} : List (Nat × α) → Nat → α → List (Nat × α)
  | [], k, v => [(k, v)]
  | (k', v') :: rest, k, v =>
      if k = k' then (k, v) :: rest else (k', v') :: setk rest k v

/-- In-memory service state: the `DataManager`'s document plus the
`LibrarySystem`'s two id counters. -/
structure LibState where
  data : Document
  next_book_id : Nat
  next_member_id : Nat
deriving Repr, DecidableEq

/-- `LibrarySystem._get_next_id`: `max(existing_ids) + 1` when the key list is
non-empty, else 1. -/
def get_next_id_from (keys : List Nat) : Nat :=
  if keys.isEmpty then 1 else keys.foldr Nat.max 0 + 1

/-- `LibrarySystem.__init__` over an already-loaded document: seed both
counters from the stored keys. -/
def LibrarySystem.mk (d : Document) : LibState :=
  ⟨d, get_next_id_from (d.books.map Prod.fst),
    get_next_id_from (d.members.map Prod.fst)⟩

/-- The empty default document. -/
def emptyDoc : Document := ⟨[], [], []⟩

/-- `LibrarySystem.add_book`: build a `Book` with the current counter, store
`book.to_dict()` under its id, bump the counter, return the entity. -/
def LibrarySystem.add_book (s : LibState) (title author isbn category : String)
    (now : Nat) : LibState × Book :=
  let book := Book.init s.next_book_id title author isbn category now
  ({ data := { s.data with
        books := setk s.data.books book.book_id book.to_dict },
     next_book_id := s.next_book_id + 1,
     next_member_id := s.next_member_id }, book)

/-- `LibrarySystem.add_member`. -/
def LibrarySystem.add_member (s : LibState) (name email : String)
    (now : Nat) : LibState × Member :=
  let member := Member.init s.next_member_id name email now
  ({ data := { s.data with
        members := setk s.data.members member.person_id member.to_dict },
     next_book_id := s.next_book_id,
     next_member_id := s.next_member_id + 1 }, member)

/-- `LibrarySystem.borrow_book`.  Clock reads, in source order: `tRec` is the
`datetime.now()` inside the transient `Member(...)` reconstruction (it
overwrites `created_at` when the member is written back), `t1`/`t2` are the
two reads inside `Member.borrow_book`, and `tTxn` dates the transaction. -/
def LibrarySystem.borrow_book (s : LibState) (member_id book_id : Nat)
    (tRec t1 t2 tTxn : Nat) : LibState × Bool × String :=
  match getk s.data.members member_id, getk s.data.books book_id with
  | some member_data, some book_data =>
    if !book_data.is_available then (s, false, "Book is not available")
    else
      let member : Member := ⟨member_data.id, member_data.name,
        member_data.email, tRec, member_data.borrowed_books, 3⟩
      if !member.can_borrow then
        (s, false, "Member has reached borrowing limit")
      else
        let book' := { book_data with
          is_available := false, borrowed_by := some member_id }
        let member' := (member.borrow_book book_id t1 t2).fst
        ({ s with data :=
            { books := setk s.data.books book_id book',
              members := setk s.data.members member_id member'.to_dict,
              transactions := s.data.transactions ++
                [⟨"borrow", member_id, book_id, tTxn⟩] } },
          true, "Book borrowed successfully")
  | _, _ => (s, false, "Member or book not found")

/-- `LibrarySystem.return_book`.  `tRec` is the clock read inside the
transient `Member(...)` reconstruction, `tTxn` dates the transaction. -/
def LibrarySystem.return_book (s : LibState) (member_id book_id : Nat)
    (tRec tTxn : Nat) : LibState × Bool × String :=
  match getk s.data.members member_id, getk s.data.books book_id with
  | some member_data, some book_data =>
      let book' := { book_data with
        is_available := true, borrowed_by := none }
      let member : Member := ⟨member_data.id, member_data.name,
        member_data.email, tRec, member_data.borrowed_books, 3⟩
      let member' := member.return_book book_id
      ({ s with data :=
          { books := setk s.data.books book_id book',
            members := setk s.data.members member_id member'.to_dict,
            transactions := s.data.transactions ++
              [⟨"return", member_id, book_id, tTxn⟩] } },
        true, "Book returned successfully")
  | _, _ => (s, false, "Member or book not found")

/-- States reachable from a service constructed over the empty document by
any sequence of service calls, with arbitrary clock readings. -/
inductive Reachable : LibState → Prop
  | init : Reachable (LibrarySystem.mk emptyDoc)
  | addBook (s : LibState) (t a i c : String) (now : Nat) :
      Reachable s → Reachable (LibrarySystem.add_book s t a i c now).fst
  | addMember (s : LibState) (n e : String) (now : Nat) :
      Reachable s → Reachable (LibrarySystem.add_member s n e now).fst
  | borrow (s : LibState) (m b tRec t1 t2 tTxn : Nat) :
      Reachable s →
      Reachable (LibrarySystem.borrow_book s m b tRec t1 t2 tTxn).fst
  | ret (s : LibState) (m b tRec tTxn : Nat) :
      Reachable s → Reachable (LibrarySystem.return_book s m b tRec tTxn).fst

/-- Variant of `Reachable` in which every `return_book` call is made by the
member currently recorded as the book's borrower (the "honest" discipline the
service itself never enforces). -/
inductive HonestReachable : LibState → Prop
  | init : HonestReachable (LibrarySystem.mk emptyDoc)
  | addBook (s : LibState) (t a i c : String) (now : Nat) :
      HonestReachable s →
      HonestReachable (LibrarySystem.add_book s t a i c now).fst
  | addMember (s : LibState) (n e : String) (now : Nat) :
      HonestReachable s →
      HonestReachable (LibrarySystem.add_member s n e now).fst
  | borrow (s : LibState) (m b tRec t1 t2 tTxn : Nat) :
      HonestReachable s →
      HonestReachable (LibrarySystem.borrow_book s m b tRec t1 t2 tTxn).fst
  | ret (s : LibState) (m b tRec tTxn : Nat) :
      HonestReachable s →
      (∀ bk, getk s.data.books b = some bk → bk.borrowed_by = some m) →
      HonestReachable (LibrarySystem.return_book s m b tRec tTxn).fst

/-- The `book_id` values a stored member record currently holds. -/
def memBookIds (mr : MemberRec) : List Nat :=
  mr.borrowed_books.map BorrowRec.book_id

/-- Claim C1's invariant on a document. -/
def BookInvariant (d : Document) : Prop :=
  ∀ b bk, getk d.books b = some bk →
    (bk.is_available = false ↔ bk.borrowed_by ≠ none)

/-- Claim C2's invariant on a document. -/
def MemberLimit (d : Document) : Prop :=
  ∀ m mr, getk d.members m = some mr → mr.borrowed_books.length ≤ 3

/-- Claim C5's property on a document: per member, held `book_id`s are
pairwise distinct. -/
def NodupHoldings (d : Document) : Prop :=
  ∀ m mr, getk d.members m = some mr → (memBookIds mr).Nodup

/-- Auxiliary invariant: every held `book_id` points at an existing book that
is checked out to exactly that member. -/
def HoldingsBacked (d : Document) : Prop :=
  ∀ m mr bid, getk d.members m = some mr → bid ∈ memBookIds mr →
    ∃ bk, getk d.books bid = some bk ∧
      bk.is_available = false ∧ bk.borrowed_by = some m

/-- Auxiliary invariant: every stored book id is below the in-memory counter,
so freshly added books cannot collide with held ids. -/
def BooksBelowCounter (s : LibState) : Prop :=
  ∀ b bk, getk s.data.books b = some bk → b < s.next_book_id

/-- Joint inductive invariant for the honest discipline. -/
def HonestInv (s : LibState) : Prop :=
  NodupHoldings s.data ∧ HoldingsBacked s.data ∧ BooksBelowCounter s

/- Concrete states for the C5 counterexample trace:
add a book, add two members, member 1 borrows book 1, member 2 "returns"
book 1 (the service does not check ownership), member 1 borrows book 1 again,
ending with a duplicated `book_id` in member 1's list. -/

/-- Counterexample trace, step 0: service over the empty store. -/
def cState0 : LibState := LibrarySystem.mk emptyDoc

/-- Step 1: `add_book`. -/
def cState1 : LibState := (LibrarySystem.add_book cState0 "T" "A" "ISBN1" "General" 0).fst

/-- Step 2: `add_member` (member 1). -/
def cState2 : LibState := (LibrarySystem.add_member cState1 "M1" "m1@x" 0).fst

/-- Step 3: `add_member` (member 2). -/
def cState3 : LibState := (LibrarySystem.add_member cState2 "M2" "m2@x" 0).fst

/-- Step 4: member 1 borrows book 1. -/
def cState4 : LibState := (LibrarySystem.borrow_book cState3 1 1 0 0 0 0).fst

/-- Step 5: member 2 returns book 1, which member 1 still holds. -/
def cState5 : LibState := (LibrarySystem.return_book cState4 2 1 0 0).fst

/-- Step 6: member 1 borrows book 1 a second time. -/
def cState6 : LibState := (LibrarySystem.borrow_book cState5 1 1 0 0 0 0).fst

/-! ## The persistence layer (`DataManager` and the JSON store file) -/

/-- JSON values, the image of Python's `json` module on store documents. -/
inductive JValue where
  | null
  | bool (b : Bool)
  | num (n : Nat)
  | str (s : String)
  | arr (xs : List JValue)
  | obj (fields : List (String × JValue))
deriving Repr

/-- The store file: absent, present but not valid JSON, or valid JSON. -/
inductive FileState where
  | missing
  | malformed
  | valid (v : JValue)
deriving Repr

/-- The default document literal `{'books': {}, 'members': {}, 'transactions': []}`. -/
def emptyDocJ : JValue :=
  .obj [("books", .obj []), ("members", .obj []), ("transactions", .arr [])]

/-- `DataManager._load_data`: if the file exists, `json.load` it — which
raises (`Except.error`) on malformed contents; otherwise return the default
document.  No shape validation is performed on a successful parse. -/
def loadData : FileState → Except String JValue
  | .missing => .ok emptyDocJ
  | .malformed => .error "json.decoder.JSONDecodeError"
  | .valid v => .ok v

/-- `DataManager._save_data`: `json.dump` overwrites the file with the
in-memory document. -/
def saveData (v : JValue) : FileState := .valid v

/-- `None`/member-id as stored in the `borrowed_by` field. -/
def encodeOptNat : Option Nat → JValue
  | none => .null
  | some n => .num n

/-- The JSON image of a stored book dict, fields in `Book.to_dict` order. -/
def encodeBookRec (b : BookRec) : JValue :=
  .obj [("id", .num b.id), ("title", .str b.title), ("author", .str b.author),
    ("isbn", .str b.isbn), ("category", .str b.category),
    ("is_available", .bool b.is_available),
    ("borrowed_by", encodeOptNat b.borrowed_by),
    ("added_date", .num b.added_date)]

/-- The JSON image of one `borrowed_books` entry. -/
def encodeBorrowRec (r : BorrowRec) : JValue :=
  .obj [("book_id", .num r.book_id), ("borrowed_date", .num r.borrowed_date),
    ("due_date", .num r.due_date)]

/-- The JSON image of a stored member dict, fields in `Member.to_dict` order. -/
def encodeMemberRec (m : MemberRec) : JValue :=
  .obj [("id", .num m.id), ("name", .str m.name), ("email", .str m.email),
    ("created_at", .num m.created_at),
    ("borrowed_books", .arr (m.borrowed_books.map encodeBorrowRec)),
    ("can_borrow_more", .bool m.can_borrow_more)]

/-- The JSON image of a transaction record. -/
def encodeTransRec (t : TransRec) : JValue :=
  .obj [("type", .str t.type), ("member_id", .num t.member_id),
    ("book_id", .num t.book_id), ("date", .num t.date)]

/-- The JSON image of the whole document; dict keys are `str(id)`. -/
def encodeDoc (d : Document) : JValue :=
  .obj [("books", .obj (d.books.map fun p => (Nat.repr p.fst, encodeBookRec p.snd))),
    ("members", .obj (d.members.map fun p => (Nat.repr p.fst, encodeMemberRec p.snd))),
    ("transactions", .arr (d.transactions.map encodeTransRec))]

/-- Read back a `borrowed_by` field. -/
def decodeOptNat : JValue → Option (Option Nat)
  | .null => some none
  | .num n => some (some n)
  | _ => none

/-- Read back a stored book dict. -/
def decodeBookRec : JValue → Option BookRec
  | .obj [("id", .num id), ("title", .str t), ("author", .str a),
      ("isbn", .str i), ("category", .str c), ("is_available", .bool av),
      ("borrowed_by", bb), ("added_date", .num ad)] =>
      match decodeOptNat bb with
      | some b => some ⟨id, t, a, i, c, av, b, ad⟩
      | none => none
  | _ => none

/-- Read back one `borrowed_books` entry. -/
def decodeBorrowRec : JValue → Option BorrowRec
  | .obj [("book_id", .num b), ("borrowed_date", .num bd),
      ("due_date", .num dd)] => some ⟨b, bd, dd⟩
  | _ => none

/-- Read back a JSON array element-wise. -/
def decodeList {α : Type} (f : JValue → Option α) : List JValue → Option (List α)
  | [] => some []
  | x :: xs =>
      match f x, decodeList f xs with
      | some a, some ys => some (a :: ys)
      | _, _ => none

/-- Read back a stored member dict. -/
def decodeMemberRec : JValue → Option MemberRec
  | .obj [("id", .num id), ("name", .str n), ("email", .str e),
      ("created_at", .num ca), ("borrowed_books", .arr bs),
      ("can_borrow_more", .bool cb)] =>
      match decodeList decodeBorrowRec bs with
      | some ys => some ⟨id, n, e, ca, ys, cb⟩
      | none => none
  | _ => none

/-- Read back a transaction record. -/
def decodeTransRec : JValue → Option TransRec
  | .obj [("type", .str ty), ("member_id", .num m), ("book_id", .num b),
      ("date", .num d)] => some ⟨ty, m, b, d⟩
  | _ => none

/-- Read back a books/members dict: each value decodes, and its JSON key must
be `str` of its `id` field (true of every record the service writes). -/
def decodeEntries {α : Type} (f : JValue → Option α) (idOf : α → Nat) :
    List (String × JValue) → Option (List (Nat × α))
  | [] => some []
  | (k, v) :: rest =>
      match f v, decodeEntries f idOf rest with
      | some a, some ys =>
          if k = Nat.repr (idOf a) then some ((idOf a, a) :: ys) else none
      | _, _ => none

/-- Read back a whole store document. -/
def decodeDoc : JValue → Option Document
  | .obj [("books", .obj bs), ("members", .obj ms),
      ("transactions", .arr ts)] =>
      match decodeEntries decodeBookRec BookRec.id bs,
        decodeEntries decodeMemberRec MemberRec.id ms,
        decodeList decodeTransRec ts with
      | some bs', some ms', some ts' => some ⟨bs', ms', ts'⟩
      | _, _, _ => none
  | _ => none

/-- A document whose dict keys agree with the `id` fields of their records —
every document the service persists has this shape. -/
def WellKeyed (d : Document) : Prop :=
  (∀ p ∈ d.books, p.snd.id = p.fst) ∧ (∀ p ∈ d.members, p.snd.id = p.fst)

/-- A small concrete store used to instantiate theorems: book 1 is checked
out to member 1 (who holds it), and member 2 holds nothing. -/
def wDoc : Document :=
  ⟨[(1, ⟨1, "T", "A", "I", "General", false, some 1, 0⟩)],
   [(1, ⟨1, "M1", "e1", 0, [⟨1, 0, 14⟩], true⟩),
    (2, ⟨2, "M2", "e2", 0, [], true⟩)],
   []⟩

/-- Service state over `wDoc` with counters as `_get_next_id` would seed. -/
def wState : LibState := ⟨wDoc, 2, 3⟩

/-! ## Association-list lemmas -/

theorem getk_setk_self {α : Type} (l : List (Nat × α)) (k : Nat) (v : α) :
    getk (setk l k v) k = some v := by
  induction l with
  | nil => simp [setk, getk]
  | cons p rest ih =>
      obtain ⟨k', v'⟩ := p
      by_cases h : k = k'
      · subst h; simp [setk, getk]
      · simp [setk, h, getk, ih]

theorem getk_setk_of_ne {α : Type} (l : List (Nat × α)) {k k' : Nat} (v : α)
    (h : k' ≠ k) : getk (setk l k v) k' = getk l k' := by
  induction l with
  | nil => simp [setk, getk, h]
  | cons p rest ih =>
      obtain ⟨k'', v''⟩ := p
      by_cases hk : k = k''
      · subst hk; simp [setk, getk, h]
      · simp [setk, hk, getk, ih]

theorem getk_setk_cases {α : Type} (l : List (Nat × α)) (k k'' : Nat)
    (v w : α) (h : getk (setk l k v) k'' = some w) :
    (k'' = k ∧ w = v) ∨ getk l k'' = some w := by
  by_cases hk : k'' = k
  · subst hk
    rw [getk_setk_self] at h
    exact Or.inl ⟨rfl, (Option.some.inj h).symm⟩
  · right
    rwa [getk_setk_of_ne _ _ hk] at h

/-! ## C1: availability/borrower linkage -/

theorem bookInvariant_add_book (s : LibState) (t a i c : String) (now : Nat)
    (inv : BookInvariant s.data) :
    BookInvariant (LibrarySystem.add_book s t a i c now).fst.data := by
  intro b bk h
  simp only [LibrarySystem.add_book] at h
  rcases getk_setk_cases _ _ _ _ _ h with ⟨_, hbk⟩ | hold
  · subst hbk; simp [Book.init, Book.to_dict]
  · exact inv _ _ hold

theorem bookInvariant_add_member (s : LibState) (n e : String) (now : Nat)
    (inv : BookInvariant s.data) :
    BookInvariant (LibrarySystem.add_member s n e now).fst.data := by
  intro b bk h
  simp only [LibrarySystem.add_member] at h
  exact inv _ _ h

theorem bookInvariant_borrow (s : LibState) (m b tRec t1 t2 tTxn : Nat)
    (inv : BookInvariant s.data) :
    BookInvariant (LibrarySystem.borrow_book s m b tRec t1 t2 tTxn).fst.data := by
  intro b' bk h
  rcases hm : getk s.data.members m with _ | mr <;>
    rcases hb : getk s.data.books b with _ | br <;>
    simp only [LibrarySystem.borrow_book, hm, hb] at h <;>
    try exact inv _ _ h
  by_cases hav : br.is_available
  · by_cases hcb : Member.can_borrow ⟨mr.id, mr.name, mr.email, tRec, mr.borrowed_books, 3⟩
    · simp only [hav, Bool.not_true, Bool.false_eq_true, if_false, hcb,
        Bool.not_true, Bool.false_eq_true, if_false] at h
      rcases getk_setk_cases _ _ _ _ _ h with ⟨_, hbk⟩ | hold
      · subst hbk; simp
      · exact inv _ _ hold
    · simp only [Bool.not_eq_true] at hcb
      simp only [hav, Bool.not_true, Bool.false_eq_true, if_false, hcb,
        Bool.not_false, if_true] at h
      exact inv _ _ h
  · simp only [Bool.not_eq_true] at hav
    simp only [hav, Bool.not_false, if_true] at h
    exact inv _ _ h

theorem bookInvariant_return (s : LibState) (m b tRec tTxn : Nat)
    (inv : BookInvariant s.data) :
    BookInvariant (LibrarySystem.return_book s m b tRec tTxn).fst.data := by
  intro b' bk h
  rcases hm : getk s.data.members m with _ | mr <;>
    rcases hb : getk s.data.books b with _ | br <;>
    simp only [LibrarySystem.return_book, hm, hb] at h <;>
    try exact inv _ _ h
  rcases getk_setk_cases _ _ _ _ _ h with ⟨_, hbk⟩ | hold
  · subst hbk; simp
  · exact inv _ _ hold

theorem reachable_bookInvariant (s : LibState) (h : Reachable s) :
    BookInvariant s.data := by
  induction h with
  | init => intro b bk h; simp [LibrarySystem.mk, emptyDoc, getk] at h
  | addBook s t a i c now _ ih => exact bookInvariant_add_book s t a i c now ih
  | addMember s n e now _ ih => exact bookInvariant_add_member s n e now ih
  | borrow s m b tRec t1 t2 tTxn _ ih => exact bookInvariant_borrow s m b tRec t1 t2 tTxn ih
  | ret s m b tRec tTxn _ ih => exact bookInvariant_return s m b tRec tTxn ih

/-- C1: in every store document reachable from the empty document by any
sequence of `add_book`, `add_member`, `borrow_book`, `return_book` service
calls, every book record has `is_available = false` iff `borrowed_by` is
non-null. -/
theorem c1_availability_iff_borrower (s : LibState) (h : Reachable s)
    (b : Nat) (bk : BookRec) (hb : getk s.data.books b = some bk) :
    bk.is_available = false ↔ bk.borrowed_by ≠ none :=
  reachable_bookInvariant s h b bk hb

/-- Witness for C1 at the concrete reachable state `cState4` and book 1. -/
theorem c1_availability_iff_borrower_witness :
    ((⟨1, "T", "A", "ISBN1", "General", false, some 1, 0⟩ : BookRec).is_available = false ↔
      (⟨1, "T", "A", "ISBN1", "General", false, some 1, 0⟩ : BookRec).borrowed_by ≠ none) := by
  have h4 : Reachable cState4 :=
    Reachable.borrow cState3 1 1 0 0 0 0
      (Reachable.addMember cState2 "M2" "m2@x" 0
        (Reachable.addMember cState1 "M1" "m1@x" 0
          (Reachable.addBook cState0 "T" "A" "ISBN1" "General" 0 Reachable.init)))
  exact c1_availability_iff_borrower cState4 h4 1 _ (by decide)

/-! ## C2: borrowing limit -/

theorem memberLimit_add_book (s : LibState) (t a i c : String) (now : Nat)
    (inv : MemberLimit s.data) :
    MemberLimit (LibrarySystem.add_book s t a i c now).fst.data := by
  intro m mr h
  simp only [LibrarySystem.add_book] at h
  exact inv _ _ h

theorem memberLimit_add_member (s : LibState) (n e : String) (now : Nat)
    (inv : MemberLimit s.data) :
    MemberLimit (LibrarySystem.add_member s n e now).fst.data := by
  intro m mr h
  simp only [LibrarySystem.add_member] at h
  rcases getk_setk_cases _ _ _ _ _ h with ⟨_, hmr⟩ | hold
  · subst hmr; simp [Member.init, Member.to_dict]
  · exact inv _ _ hold

theorem memberLimit_borrow (s : LibState) (m b tRec t1 t2 tTxn : Nat)
    (inv : MemberLimit s.data) :
    MemberLimit (LibrarySystem.borrow_book s m b tRec t1 t2 tTxn).fst.data := by
  intro m' mr' h
  rcases hm : getk s.data.members m with _ | mr <;>
    rcases hb : getk s.data.books b with _ | br <;>
    simp only [LibrarySystem.borrow_book, hm, hb] at h <;>
    try exact inv _ _ h
  by_cases hav : br.is_available
  · by_cases hcb : Member.can_borrow ⟨mr.id, mr.name, mr.email, tRec, mr.borrowed_books, 3⟩
    · simp only [hav, Bool.not_true, Bool.false_eq_true, if_false, hcb,
        Member.borrow_book, if_true, Member.to_dict] at h
      rcases getk_setk_cases _ _ _ _ _ h with ⟨_, hmr⟩ | hold
      · subst hmr
        simp only [Member.can_borrow, decide_eq_true_eq] at hcb
        simp only [List.length_append, List.length_singleton]
        omega
      · exact inv _ _ hold
    · simp only [Bool.not_eq_true] at hcb
      simp only [hav, Bool.not_true, Bool.false_eq_true, if_false, hcb,
        Bool.not_false, if_true] at h
      exact inv _ _ h
  · simp only [Bool.not_eq_true] at hav
    simp only [hav, Bool.not_false, if_true] at h
    exact inv _ _ h

theorem memberLimit_return (s : LibState) (m b tRec tTxn : Nat)
    (inv : MemberLimit s.data) :
    MemberLimit (LibrarySystem.return_book s m b tRec tTxn).fst.data := by
  intro m' mr' h
  rcases hm : getk s.data.members m with _ | mr <;>
    rcases hb : getk s.data.books b with _ | br <;>
    simp only [LibrarySystem.return_book, hm, hb] at h <;>
    try exact inv _ _ h
  simp only [Member.return_book, Member.to_dict] at h
  rcases getk_setk_cases _ _ _ _ _ h with ⟨_, hmr⟩ | hold
  · subst hmr
    calc (mr.borrowed_books.filter (fun x => x.book_id != b)).length
        ≤ mr.borrowed_books.length := List.length_filter_le _ _
      _ ≤ 3 := inv m mr hm
  · exact inv _ _ hold

theorem reachable_memberLimit (s : LibState) (h : Reachable s) :
    MemberLimit s.data := by
  induction h with
  | init => intro m mr h; simp [LibrarySystem.mk, emptyDoc, getk] at h
  | addBook s t a i c now _ ih => exact memberLimit_add_book s t a i c now ih
  | addMember s n e now _ ih => exact memberLimit_add_member s n e now ih
  | borrow s m b tRec t1 t2 tTxn _ ih => exact memberLimit_borrow s m b tRec t1 t2 tTxn ih
  | ret s m b tRec tTxn _ ih => exact memberLimit_return s m b tRec tTxn ih

/-- C2: in every store document reachable by any sequence of service
operations, every member record's `borrowed_books` list has length at
most 3. -/
theorem c2_borrow_limit (s : LibState) (h : Reachable s)
    (m : Nat) (mr : MemberRec) (hm : getk s.data.members m = some mr) :
    mr.borrowed_books.length ≤ 3 :=
  reachable_memberLimit s h m mr hm

/-- Witness for C2 at the concrete reachable state `cState4` and member 1. -/
theorem c2_borrow_limit_witness :
    (⟨1, "M1", "m1@x", 0, [⟨1, 0, 0 + fourteenDays⟩], true⟩ : MemberRec).borrowed_books.length ≤ 3 := by
  have h4 : Reachable cState4 :=
    Reachable.borrow cState3 1 1 0 0 0 0
      (Reachable.addMember cState2 "M2" "m2@x" 0
        (Reachable.addMember cState1 "M1" "m1@x" 0
          (Reachable.addBook cState0 "T" "A" "ISBN1" "General" 0 Reachable.init)))
  exact c2_borrow_limit cState4 h4 1 _ (by decide)

/-! ## C3: borrowing an unavailable book is a rejected no-op -/

/-- C3: whenever both records exist and the book's `is_available` is false,
`borrow_book` returns `(false, "Book is not available")` and the whole service
state — document and counters — is returned unchanged. -/
theorem c3_unavailable_borrow_noop (s : LibState) (m b tRec t1 t2 tTxn : Nat)
    (mr : MemberRec) (bk : BookRec)
    (hm : getk s.data.members m = some mr)
    (hb : getk s.data.books b = some bk)
    (hav : bk.is_available = false) :
    LibrarySystem.borrow_book s m b tRec t1 t2 tTxn =
      (s, false, "Book is not available") := by
  simp only [LibrarySystem.borrow_book, hm, hb, hav, Bool.not_false, if_true]

/-- Witness for C3: member 2 tries to borrow the checked-out book 1 of
`wState`. -/
theorem c3_unavailable_borrow_noop_witness :
    LibrarySystem.borrow_book wState 2 1 0 0 0 0 =
      (wState, false, "Book is not available") :=
  c3_unavailable_borrow_noop wState 2 1 0 0 0 0
    ⟨2, "M2", "e2", 0, [], true⟩
    ⟨1, "T", "A", "I", "General", false, some 1, 0⟩
    (by decide) (by decide) (by decide)

/-! ## C4: return_book succeeds whenever both records exist -/

/-- C4: when both records exist, `return_book` — regardless of who (if
anyone) borrowed the book — reports success, makes the book available with a
null borrower, filters every entry matching `book_id` out of that member's
`borrowed_books` (a no-op when none match), and appends exactly one
`"return"` transaction; and it fails with the not-found message exactly when
one of the records is missing. -/
theorem c4_return_book (s : LibState) (m b tRec tTxn : Nat) :
    (∀ mr bk, getk s.data.members m = some mr →
      getk s.data.books b = some bk →
      (LibrarySystem.return_book s m b tRec tTxn).snd.fst = true ∧
      getk (LibrarySystem.return_book s m b tRec tTxn).fst.data.books b =
        some { bk with is_available := true, borrowed_by := none } ∧
      (∃ mr', getk (LibrarySystem.return_book s m b tRec tTxn).fst.data.members m = some mr' ∧
        mr'.borrowed_books = mr.borrowed_books.filter (fun x => x.book_id != b)) ∧
      (LibrarySystem.return_book s m b tRec tTxn).fst.data.transactions =
        s.data.transactions ++ [⟨"return", m, b, tTxn⟩]) ∧
    ((getk s.data.members m = none ∨ getk s.data.books b = none) →
      LibrarySystem.return_book s m b tRec tTxn =
        (s, false, "Member or book not found")) := by
  constructor
  · intro mr bk hm hb
    refine ⟨?_, ?_, ?_, ?_⟩
    · simp only [LibrarySystem.return_book, hm, hb]
    · simp only [LibrarySystem.return_book, hm, hb]
      exact getk_setk_self _ _ _
    · refine ⟨Member.to_dict
        (Member.return_book ⟨mr.id, mr.name, mr.email, tRec, mr.borrowed_books, 3⟩ b),
        ?_, rfl⟩
      simp only [LibrarySystem.return_book, hm, hb]
      exact getk_setk_self _ _ _
    · simp only [LibrarySystem.return_book, hm, hb]
  · intro h
    rcases h with hm | hb
    · simp only [LibrarySystem.return_book, hm]
    · rcases hm : getk s.data.members m with _ | mr <;>
        simp only [LibrarySystem.return_book, hm, hb]

/-- Witness for C4: member 1 returns book 1 in `wState`. -/
theorem c4_return_book_witness :
    (LibrarySystem.return_book wState 1 1 5 6).snd.fst = true ∧
    getk (LibrarySystem.return_book wState 1 1 5 6).fst.data.books 1 =
      some ⟨1, "T", "A", "I", "General", true, none, 0⟩ ∧
    (∃ mr', getk (LibrarySystem.return_book wState 1 1 5 6).fst.data.members 1 = some mr' ∧
      mr'.borrowed_books =
        ([⟨1, 0, 14⟩] : List BorrowRec).filter (fun x => x.book_id != 1)) ∧
    (LibrarySystem.return_book wState 1 1 5 6).fst.data.transactions =
      wState.data.transactions ++ [⟨"return", 1, 1, 6⟩] :=
  (c4_return_book wState 1 1 5 6).1
    ⟨1, "M1", "e1", 0, [⟨1, 0, 14⟩], true⟩
    ⟨1, "T", "A", "I", "General", false, some 1, 0⟩
    (by decide) (by decide)

/-! ## C10: frame property of borrow_book and return_book -/

theorem borrow_book_effects (s : LibState) (m b tRec t1 t2 tTxn : Nat) :
    (LibrarySystem.borrow_book s m b tRec t1 t2 tTxn).fst = s ∨
    ∃ bk' mr',
      (LibrarySystem.borrow_book s m b tRec t1 t2 tTxn).fst.data.books =
        setk s.data.books b bk' ∧
      (LibrarySystem.borrow_book s m b tRec t1 t2 tTxn).fst.data.members =
        setk s.data.members m mr' ∧
      (LibrarySystem.borrow_book s m b tRec t1 t2 tTxn).fst.data.transactions =
        s.data.transactions ++ [⟨"borrow", m, b, tTxn⟩] := by
  rcases hm : getk s.data.members m with _ | mr <;>
    rcases hb : getk s.data.books b with _ | br <;>
    simp only [LibrarySystem.borrow_book, hm, hb] <;>
    try exact Or.inl (by trivial)
  by_cases hav : br.is_available
  · by_cases hcb : Member.can_borrow ⟨mr.id, mr.name, mr.email, tRec, mr.borrowed_books, 3⟩
    · refine Or.inr ⟨{ br with is_available := false, borrowed_by := some m },
        Member.to_dict ((Member.borrow_book
          ⟨mr.id, mr.name, mr.email, tRec, mr.borrowed_books, 3⟩ b t1 t2).fst),
        ?_, ?_, ?_⟩ <;>
        simp only [hav, Bool.not_true, Bool.false_eq_true, if_false, hcb]
    · simp only [Bool.not_eq_true] at hcb
      simp only [hav, Bool.not_true, Bool.false_eq_true, if_false, hcb,
        Bool.not_false, if_true]
      exact Or.inl trivial
  · simp only [Bool.not_eq_true] at hav
    simp only [hav, Bool.not_false, if_true]
    exact Or.inl trivial

theorem return_book_effects (s : LibState) (m b tRec tTxn : Nat) :
    (LibrarySystem.return_book s m b tRec tTxn).fst = s ∨
    ∃ bk' mr',
      (LibrarySystem.return_book s m b tRec tTxn).fst.data.books =
        setk s.data.books b bk' ∧
      (LibrarySystem.return_book s m b tRec tTxn).fst.data.members =
        setk s.data.members m mr' ∧
      (LibrarySystem.return_book s m b tRec tTxn).fst.data.transactions =
        s.data.transactions ++ [⟨"return", m, b, tTxn⟩] := by
  rcases hm : getk s.data.members m with _ | mr <;>
    rcases hb : getk s.data.books b with _ | br <;>
    simp only [LibrarySystem.return_book, hm, hb] <;>
    try exact Or.inl (by trivial)
  exact Or.inr ⟨{ br with is_available := true, borrowed_by := none },
    Member.to_dict (Member.return_book
      ⟨mr.id, mr.name, mr.email, tRec, mr.borrowed_books, 3⟩ b),
    rfl, rfl, trivial⟩

/-- C10: `borrow_book s m b` and `return_book s m b` touch at most book `b`'s
record and member `m`'s record and append at most one transaction, leaving
every other book, every other member, and all pre-existing transactions
unchanged; in particular a `return_book` issued by `m2` for a book whose
record names `m1 ≠ m2` as borrower leaves `m1`'s record (which still lists
the book) unchanged while the book becomes available. -/
theorem c10_frame (s : LibState) (m b tRec t1 t2 tTxn tR2 tT2 : Nat) :
    (∀ b', b' ≠ b →
      getk (LibrarySystem.borrow_book s m b tRec t1 t2 tTxn).fst.data.books b' =
        getk s.data.books b') ∧
    (∀ m', m' ≠ m →
      getk (LibrarySystem.borrow_book s m b tRec t1 t2 tTxn).fst.data.members m' =
        getk s.data.members m') ∧
    ((LibrarySystem.borrow_book s m b tRec t1 t2 tTxn).fst.data.transactions =
        s.data.transactions ∨
      ∃ t, (LibrarySystem.borrow_book s m b tRec t1 t2 tTxn).fst.data.transactions =
        s.data.transactions ++ [t]) ∧
    (∀ b', b' ≠ b →
      getk (LibrarySystem.return_book s m b tRec tTxn).fst.data.books b' =
        getk s.data.books b') ∧
    (∀ m', m' ≠ m →
      getk (LibrarySystem.return_book s m b tRec tTxn).fst.data.members m' =
        getk s.data.members m') ∧
    ((LibrarySystem.return_book s m b tRec tTxn).fst.data.transactions =
        s.data.transactions ∨
      ∃ t, (LibrarySystem.return_book s m b tRec tTxn).fst.data.transactions =
        s.data.transactions ++ [t]) ∧
    (∀ m1 m2 bk mr1 mr2, getk s.data.books b = some bk →
      bk.borrowed_by = some m1 → m1 ≠ m2 →
      getk s.data.members m1 = some mr1 →
      getk s.data.members m2 = some mr2 → b ∈ memBookIds mr1 →
      getk (LibrarySystem.return_book s m2 b tR2 tT2).fst.data.members m1 = some mr1 ∧
      b ∈ memBookIds mr1 ∧
      getk (LibrarySystem.return_book s m2 b tR2 tT2).fst.data.books b =
        some { bk with is_available := true, borrowed_by := none }) := by
  refine ⟨?_, ?_, ?_, ?_, ?_, ?_, ?_⟩
  · intro b' hb'
    rcases borrow_book_effects s m b tRec t1 t2 tTxn with h | ⟨bk', mr', hB, _, _⟩
    · rw [h]
    · rw [hB, getk_setk_of_ne _ _ hb']
  · intro m' hm'
    rcases borrow_book_effects s m b tRec t1 t2 tTxn with h | ⟨bk', mr', _, hM, _⟩
    · rw [h]
    · rw [hM, getk_setk_of_ne _ _ hm']
  · rcases borrow_book_effects s m b tRec t1 t2 tTxn with h | ⟨bk', mr', _, _, hT⟩
    · exact Or.inl (by rw [h])
    · exact Or.inr ⟨_, hT⟩
  · intro b' hb'
    rcases return_book_effects s m b tRec tTxn with h | ⟨bk', mr', hB, _, _⟩
    · rw [h]
    · rw [hB, getk_setk_of_ne _ _ hb']
  · intro m' hm'
    rcases return_book_effects s m b tRec tTxn with h | ⟨bk', mr', _, hM, _⟩
    · rw [h]
    · rw [hM, getk_setk_of_ne _ _ hm']
  · rcases return_book_effects s m b tRec tTxn with h | ⟨bk', mr', _, _, hT⟩
    · exact Or.inl (by rw [h])
    · exact Or.inr ⟨_, hT⟩
  · intro m1 m2 bk mr1 mr2 hbk hby hne hm1 hm2 hmem
    refine ⟨?_, hmem, ?_⟩
    · simp only [LibrarySystem.return_book, hm2, hbk]
      rw [getk_setk_of_ne _ _ hne]
      exact hm1
    · simp only [LibrarySystem.return_book, hm2, hbk]
      exact getk_setk_self _ _ _

/-- Witness for C10: the cross-member return scenario at `wState`
(member 2 returns book 1, which member 1 borrowed). -/
theorem c10_frame_witness :
    getk (LibrarySystem.return_book wState 2 1 7 8).fst.data.members 1 =
      some ⟨1, "M1", "e1", 0, [⟨1, 0, 14⟩], true⟩ ∧
    (1 : Nat) ∈ memBookIds ⟨1, "M1", "e1", 0, [⟨1, 0, 14⟩], true⟩ ∧
    getk (LibrarySystem.return_book wState 2 1 7 8).fst.data.books 1 =
      some ⟨1, "T", "A", "I", "General", true, none, 0⟩ :=
  (c10_frame wState 2 1 0 0 0 0 7 8).2.2.2.2.2.2 1 2
    ⟨1, "T", "A", "I", "General", false, some 1, 0⟩
    ⟨1, "M1", "e1", 0, [⟨1, 0, 14⟩], true⟩
    ⟨2, "M2", "e2", 0, [], true⟩
    (by decide) (by decide) (by decide) (by decide) (by decide) (by decide)

/-! ## C5: per-member uniqueness of held book ids -/

/-- C5 counterexample: after `add_book`, two `add_member`s, a borrow by
member 1, a `return_book` issued by member 2 for the same book, and a second
borrow by member 1, member 1's `borrowed_books` lists `book_id = 1` twice —
so uniqueness does not hold in all reachable states. -/
theorem c5_counterexample :
    ¬ (∀ s, Reachable s → ∀ m mr, getk s.data.members m = some mr →
        (memBookIds mr).Nodup) := by
  intro h
  have h6 : Reachable cState6 :=
    Reachable.borrow cState5 1 1 0 0 0 0
      (Reachable.ret cState4 2 1 0 0
        (Reachable.borrow cState3 1 1 0 0 0 0
          (Reachable.addMember cState2 "M2" "m2@x" 0
            (Reachable.addMember cState1 "M1" "m1@x" 0
              (Reachable.addBook cState0 "T" "A" "ISBN1" "General" 0
                Reachable.init)))))
  have hdup := h cState6 h6 1
    ⟨1, "M1", "m1@x", 0, [⟨1, 0, 14⟩, ⟨1, 0, 14⟩], true⟩ (by decide)
  exact absurd hdup (by decide)

theorem honestInv_add_book (s : LibState) (t a i c : String) (now : Nat)
    (inv : HonestInv s) :
    HonestInv (LibrarySystem.add_book s t a i c now).fst := by
  obtain ⟨hnd, hbk, hcnt⟩ := inv
  refine ⟨?_, ?_, ?_⟩
  · intro m mr h
    simp only [LibrarySystem.add_book] at h
    exact hnd _ _ h
  · intro m mr bid h hmem
    simp only [LibrarySystem.add_book, Book.init, Book.to_dict] at h ⊢
    obtain ⟨bk, hg, hav, hby⟩ := hbk m mr bid h hmem
    refine ⟨bk, ?_, hav, hby⟩
    rw [getk_setk_of_ne _ _ (Nat.ne_of_lt (hcnt _ _ hg))]
    exact hg
  · intro b bk h
    simp only [LibrarySystem.add_book, Book.init, Book.to_dict] at h ⊢
    rcases getk_setk_cases _ _ _ _ _ h with ⟨hb, _⟩ | hold
    · subst hb; exact Nat.lt_succ_self _
    · exact Nat.lt_trans (hcnt _ _ hold) (Nat.lt_succ_self _)

theorem honestInv_add_member (s : LibState) (n e : String) (now : Nat)
    (inv : HonestInv s) :
    HonestInv (LibrarySystem.add_member s n e now).fst := by
  obtain ⟨hnd, hbk, hcnt⟩ := inv
  refine ⟨?_, ?_, ?_⟩
  · intro m mr h
    simp only [LibrarySystem.add_member] at h
    rcases getk_setk_cases _ _ _ _ _ h with ⟨_, hmr⟩ | hold
    · subst hmr; simp [Member.init, Member.to_dict, memBookIds]
    · exact hnd _ _ hold
  · intro m mr bid h hmem
    simp only [LibrarySystem.add_member] at h ⊢
    rcases getk_setk_cases _ _ _ _ _ h with ⟨_, hmr⟩ | hold
    · subst hmr; simp [Member.init, Member.to_dict, memBookIds] at hmem
    · exact hbk _ _ _ hold hmem
  · intro b bk h
    simp only [LibrarySystem.add_member] at h ⊢
    exact hcnt _ _ h

theorem honestInv_borrow (s : LibState) (m b tRec t1 t2 tTxn : Nat)
    (inv : HonestInv s) :
    HonestInv (LibrarySystem.borrow_book s m b tRec t1 t2 tTxn).fst := by
  obtain ⟨hnd, hbk, hcnt⟩ := inv
  rcases hm : getk s.data.members m with _ | mr
  · have hid : (LibrarySystem.borrow_book s m b tRec t1 t2 tTxn).fst = s := by
      rcases hb : getk s.data.books b with _ | br <;>
        simp only [LibrarySystem.borrow_book, hm, hb]
    rw [hid]; exact ⟨hnd, hbk, hcnt⟩
  rcases hb : getk s.data.books b with _ | br
  · have hid : (LibrarySystem.borrow_book s m b tRec t1 t2 tTxn).fst = s := by
      simp only [LibrarySystem.borrow_book, hm, hb]
    rw [hid]; exact ⟨hnd, hbk, hcnt⟩
  by_cases hav : br.is_available
  case neg =>
    simp only [Bool.not_eq_true] at hav
    have hid : (LibrarySystem.borrow_book s m b tRec t1 t2 tTxn).fst = s := by
      simp only [LibrarySystem.borrow_book, hm, hb, hav, Bool.not_false, if_true]
    rw [hid]; exact ⟨hnd, hbk, hcnt⟩
  by_cases hcb : Member.can_borrow ⟨mr.id, mr.name, mr.email, tRec, mr.borrowed_books, 3⟩
  case neg =>
    simp only [Bool.not_eq_true] at hcb
    have hid : (LibrarySystem.borrow_book s m b tRec t1 t2 tTxn).fst = s := by
      simp only [LibrarySystem.borrow_book, hm, hb, hav, Bool.not_true,
        Bool.false_eq_true, if_false, hcb, Bool.not_false, if_true]
    rw [hid]; exact ⟨hnd, hbk, hcnt⟩
  -- success path
  have hfresh : ∀ m' mr', getk s.data.members m' = some mr' →
      b ∉ memBookIds mr' := by
    intro m' mr' hm' hmem
    obtain ⟨bk0, hg0, hav0, _⟩ := hbk m' mr' b hm' hmem
    rw [hb] at hg0
    cases hg0
    rw [hav] at hav0
    cases hav0
  have hmb : (Member.borrow_book
      ⟨mr.id, mr.name, mr.email, tRec, mr.borrowed_books, 3⟩ b t1 t2).fst =
      ⟨mr.id, mr.name, mr.email, tRec,
        mr.borrowed_books ++ [⟨b, t1, t2 + fourteenDays⟩], 3⟩ := by
    simp only [Member.borrow_book, hcb, if_true]
  have hres : (LibrarySystem.borrow_book s m b tRec t1 t2 tTxn).fst =
      ⟨⟨setk s.data.books b { br with is_available := false, borrowed_by := some m },
        setk s.data.members m
          ⟨mr.id, mr.name, mr.email, tRec,
            mr.borrowed_books ++ [⟨b, t1, t2 + fourteenDays⟩],
            Member.can_borrow ⟨mr.id, mr.name, mr.email, tRec,
              mr.borrowed_books ++ [⟨b, t1, t2 + fourteenDays⟩], 3⟩⟩,
        s.data.transactions ++ [⟨"borrow", m, b, tTxn⟩]⟩,
        s.next_book_id, s.next_member_id⟩ := by
    simp only [LibrarySystem.borrow_book, hm, hb, hav, Bool.not_true,
      Bool.false_eq_true, if_false, hcb, hmb, Member.to_dict]
  rw [hres]
  refine ⟨?_, ?_, ?_⟩
  · intro m0 mr0 h0
    rcases getk_setk_cases _ _ _ _ _ h0 with ⟨_, hmr0⟩ | hold
    · subst hmr0
      simp only [memBookIds, List.map_append, List.map_cons, List.map_nil]
      rw [List.nodup_append]
      refine ⟨hnd m mr hm, List.nodup_singleton _, ?_⟩
      intro x hx hx'
      simp only [List.mem_singleton] at hx'
      subst hx'
      exact hfresh m mr hm hx
    · exact hnd _ _ hold
  · intro m0 mr0 bid h0 hmem0
    rcases getk_setk_cases _ _ _ _ _ h0 with ⟨hm0, hmr0⟩ | hold
    · subst hmr0
      simp only [memBookIds, List.map_append, List.map_cons, List.map_nil,
        List.mem_append, List.mem_singleton] at hmem0
      rcases hmem0 with hmem0 | hmem0
      · have hne : bid ≠ b := by
          intro hbid
          subst hbid
          exact hfresh m mr hm hmem0
        obtain ⟨bk0, hg0, hav0, hby0⟩ := hbk m mr bid hm hmem0
        refine ⟨bk0, ?_, hav0, ?_⟩
        · rw [getk_setk_of_ne _ _ hne]; exact hg0
        · rw [hby0, hm0]
      · subst hmem0
        refine ⟨{ br with is_available := false, borrowed_by := some m }, ?_, rfl, ?_⟩
        · exact getk_setk_self _ _ _
        · rw [hm0]
    · by_cases hbid : bid = b
      · subst hbid
        exact absurd hmem0 (hfresh m0 mr0 hold)
      · obtain ⟨bk0, hg0, hav0, hby0⟩ := hbk m0 mr0 bid hold hmem0
        refine ⟨bk0, ?_, hav0, hby0⟩
        rw [getk_setk_of_ne _ _ hbid]
        exact hg0
  · intro b0 bk0 h0
    rcases getk_setk_cases _ _ _ _ _ h0 with ⟨hb0, _⟩ | hold
    · subst hb0; exact hcnt _ _ hb
    · exact hcnt _ _ hold

theorem honestInv_return (s : LibState) (m b tRec tTxn : Nat)
    (inv : HonestInv s)
    (hhon : ∀ bk, getk s.data.books b = some bk → bk.borrowed_by = some m) :
    HonestInv (LibrarySystem.return_book s m b tRec tTxn).fst := by
  obtain ⟨hnd, hbk, hcnt⟩ := inv
  rcases hm : getk s.data.members m with _ | mr
  · have hid : (LibrarySystem.return_book s m b tRec tTxn).fst = s := by
      rcases hb : getk s.data.books b with _ | br <;>
        simp only [LibrarySystem.return_book, hm, hb]
    rw [hid]; exact ⟨hnd, hbk, hcnt⟩
  rcases hb : getk s.data.books b with _ | br
  · have hid : (LibrarySystem.return_book s m b tRec tTxn).fst = s := by
      simp only [LibrarySystem.return_book, hm, hb]
    rw [hid]; exact ⟨hnd, hbk, hcnt⟩
  have hbm : br.borrowed_by = some m := hhon br hb
  have honly : ∀ m' mr', getk s.data.members m' = some mr' →
      b ∈ memBookIds mr' → m' = m := by
    intro m' mr' hm' hmem
    obtain ⟨bk0, hg0, _, hby0⟩ := hbk m' mr' b hm' hmem
    rw [hb] at hg0
    cases hg0
    rw [hbm] at hby0
    exact (Option.some.inj hby0).symm
  have hres : (LibrarySystem.return_book s m b tRec tTxn).fst =
      ⟨⟨setk s.data.books b { br with is_available := true, borrowed_by := none },
        setk s.data.members m
          ⟨mr.id, mr.name, mr.email, tRec,
            mr.borrowed_books.filter (fun x => x.book_id != b),
            Member.can_borrow ⟨mr.id, mr.name, mr.email, tRec,
              mr.borrowed_books.filter (fun x => x.book_id != b), 3⟩⟩,
        s.data.transactions ++ [⟨"return", m, b, tTxn⟩]⟩,
        s.next_book_id, s.next_member_id⟩ := by
    simp only [LibrarySystem.return_book, hm, hb, Member.return_book,
      Member.to_dict]
  have hnotin : b ∉ (mr.borrowed_books.filter
      (fun x => x.book_id != b)).map BorrowRec.book_id := by
    intro hmem
    simp only [List.mem_map, List.mem_filter, bne_iff_ne] at hmem
    obtain ⟨x, ⟨_, hne⟩, heq⟩ := hmem
    exact hne heq
  rw [hres]
  refine ⟨?_, ?_, ?_⟩
  · intro m0 mr0 h0
    rcases getk_setk_cases _ _ _ _ _ h0 with ⟨_, hmr0⟩ | hold
    · subst hmr0
      have hsub : List.Sublist
          ((mr.borrowed_books.filter (fun x => x.book_id != b)).map BorrowRec.book_id)
          (mr.borrowed_books.map BorrowRec.book_id) :=
        (List.filter_sublist _).map _
      exact (hnd m mr hm).sublist hsub
    · exact hnd _ _ hold
  · intro m0 mr0 bid h0 hmem0
    rcases getk_setk_cases _ _ _ _ _ h0 with ⟨hm0, hmr0⟩ | hold
    · subst hmr0
      simp only [memBookIds, List.mem_map, List.mem_filter, bne_iff_ne] at hmem0
      obtain ⟨x, ⟨hxmem, hxne⟩, hxeq⟩ := hmem0
      have hbid : bid ≠ b := hxeq ▸ hxne
      have hmemold : bid ∈ memBookIds mr := by
        simp only [memBookIds, List.mem_map]
        exact ⟨x, hxmem, hxeq⟩
      obtain ⟨bk0, hg0, hav0, hby0⟩ := hbk m mr bid hm hmemold
      refine ⟨bk0, ?_, hav0, ?_⟩
      · rw [getk_setk_of_ne _ _ hbid]; exact hg0
      · rw [hby0, hm0]
    · by_cases hbid : bid = b
      · subst hbid
        have hm0 : m0 = m := honly m0 mr0 hold hmem0
        subst hm0
        rw [getk_setk_self] at h0
        cases h0
        exact absurd hmem0 hnotin
      · obtain ⟨bk0, hg0, hav0, hby0⟩ := hbk m0 mr0 bid hold hmem0
        refine ⟨bk0, ?_, hav0, hby0⟩
        rw [getk_setk_of_ne _ _ hbid]
        exact hg0
  · intro b0 bk0 h0
    rcases getk_setk_cases _ _ _ _ _ h0 with ⟨hb0, _⟩ | hold
    · subst hb0; exact hcnt _ _ hb
    · exact hcnt _ _ hold

theorem honestReachable_inv (s : LibState) (h : HonestReachable s) :
    HonestInv s := by
  induction h with
  | init =>
      refine ⟨?_, ?_, ?_⟩
      · intro m mr h
        simp [LibrarySystem.mk, emptyDoc, getk] at h
      · intro m mr bid h hmem
        simp [LibrarySystem.mk, emptyDoc, getk] at h
      · intro b bk h
        simp [LibrarySystem.mk, emptyDoc, getk] at h
  | addBook s t a i c now _ ih => exact honestInv_add_book s t a i c now ih
  | addMember s n e now _ ih => exact honestInv_add_member s n e now ih
  | borrow s m b tRec t1 t2 tTxn _ ih => exact honestInv_borrow s m b tRec t1 t2 tTxn ih
  | ret s m b tRec tTxn _ hhon ih => exact honestInv_return s m b tRec tTxn ih hhon

/-- C5 (amended): per-member uniqueness of `book_id`s in `borrowed_books`
holds in every state reachable when each `return_book(m, b)` call is issued
by the member the book's record names as its borrower; an arbitrary sequence
of service calls can violate it (see the counterexample), because a foreign
`return_book` makes the book available while the borrower still lists it. -/
theorem c5_amended_nodup_holdings (s : LibState) (h : HonestReachable s)
    (m : Nat) (mr : MemberRec) (hm : getk s.data.members m = some mr) :
    (memBookIds mr).Nodup :=
  (honestReachable_inv s h).1 m mr hm

/-- Witness for the amended C5 at the honest state `cState4`. -/
theorem c5_amended_nodup_holdings_witness :
    (memBookIds ⟨1, "M1", "m1@x", 0, [⟨1, 0, 14⟩], true⟩).Nodup := by
  have h4 : HonestReachable cState4 :=
    HonestReachable.borrow cState3 1 1 0 0 0 0
      (HonestReachable.addMember cState2 "M2" "m2@x" 0
        (HonestReachable.addMember cState1 "M1" "m1@x" 0
          (HonestReachable.addBook cState0 "T" "A" "ISBN1" "General" 0
            HonestReachable.init)))
  exact c5_amended_nodup_holdings cState4 h4 1 _ (by decide)

/-! ## C6: due date vs borrow date -/

/-- C6 (code bug): `Member.borrow_book` reads the clock twice — once for
`borrowed_date` and once for `due_date`.  Evaluated at the failing input
where the first `datetime.now()` returns 0 and the second returns 1, the
appended record has `borrowed_date = 0` but `due_date = 1 + fourteenDays`,
so `due_date ≠ borrowed_date + fourteenDays`: the due date is not derived
from the timestamp recorded as the borrow date. -/
theorem c6_due_date_clock_skew :
    ((Member.init 1 "J" "j@x" 0).borrow_book 5 0 1).snd = true ∧
    ((Member.init 1 "J" "j@x" 0).borrow_book 5 0 1).fst.borrowed_books =
      [⟨5, 0, 1 + fourteenDays⟩] ∧
    (((Member.init 1 "J" "j@x" 0).borrow_book 5 0 1).fst.borrowed_books.all
      (fun r => r.due_date != r.borrowed_date + fourteenDays)) = true := by
  decide

/-! ## C7: loading a missing or malformed store file -/

/-- C7 counterexample: when the store file exists but is malformed,
`_load_data` calls `json.load`, which raises — it does not return the empty
default document. -/
theorem c7_counterexample :
    ¬ (loadData FileState.malformed = Except.ok emptyDocJ) := by
  intro h
  cases h

/-- C7 (amended): `_load_data` returns the empty default document only when
the store file is missing; an existing but malformed file makes `json.load`
raise a decode error, which propagates; an existing well-formed file is
returned as parsed, with no shape validation. -/
theorem c7_amended_load_behavior :
    loadData FileState.missing = Except.ok emptyDocJ ∧
    loadData FileState.malformed = Except.error "json.decoder.JSONDecodeError" ∧
    ∀ v, loadData (FileState.valid v) = Except.ok v :=
  ⟨rfl, rfl, fun _ => rfl⟩

/-! ## C8: id allocation -/

theorem foldr_max_attained (l : List Nat) (h : l ≠ []) :
    ∃ k ∈ l, l.foldr Nat.max 0 = k ∧ ∀ k' ∈ l, k' ≤ k := by
  induction l with
  | nil => exact absurd rfl h
  | cons x xs ih =>
      by_cases hxs : xs = []
      · subst hxs
        refine ⟨x, List.mem_singleton_self x, ?_, ?_⟩
        · rw [List.foldr_cons, List.foldr_nil]
          exact Nat.max_zero x
        · intro k' hk'
          rw [List.mem_singleton] at hk'
          rw [hk']
      · obtain ⟨k, hk, hfold, hmax⟩ := ih hxs
        by_cases hle : x ≤ k
        · refine ⟨k, List.mem_cons_of_mem _ hk, ?_, ?_⟩
          · rw [List.foldr_cons, hfold]
            exact Nat.max_eq_right hle
          · intro k' hk'
            rcases List.mem_cons.mp hk' with h1 | h1
            · rw [h1]; exact hle
            · exact hmax _ h1
        · refine ⟨x, List.mem_cons_self _ _, ?_, ?_⟩
          · rw [List.foldr_cons, hfold]
            exact Nat.max_eq_left (le_of_not_le hle)
          · intro k' hk'
            rcases List.mem_cons.mp hk' with h1 | h1
            · rw [h1]
            · exact le_trans (hmax _ h1) (le_of_not_le hle)

/-- C8: at service construction each counter is `max(existing ids) + 1`, or 1
when the collection is empty; each add operation assigns the current counter
to the new entity (and its stored record) and increments the counter in
memory; in particular, from the empty store the first `add_book` returns a
book with `id = 1` and `is_available = true`. -/
theorem c8_id_allocation :
    (∀ d : Document, d.books = [] → (LibrarySystem.mk d).next_book_id = 1) ∧
    (∀ d : Document, d.members = [] → (LibrarySystem.mk d).next_member_id = 1) ∧
    (∀ d : Document, d.books ≠ [] → ∃ k ∈ d.books.map Prod.fst,
      (LibrarySystem.mk d).next_book_id = k + 1 ∧
      ∀ k' ∈ d.books.map Prod.fst, k' ≤ k) ∧
    (∀ d : Document, d.members ≠ [] → ∃ k ∈ d.members.map Prod.fst,
      (LibrarySystem.mk d).next_member_id = k + 1 ∧
      ∀ k' ∈ d.members.map Prod.fst, k' ≤ k) ∧
    (∀ s t a i c now,
      (LibrarySystem.add_book s t a i c now).snd.book_id = s.next_book_id ∧
      (LibrarySystem.add_book s t a i c now).fst.next_book_id = s.next_book_id + 1 ∧
      getk (LibrarySystem.add_book s t a i c now).fst.data.books s.next_book_id =
        some (Book.init s.next_book_id t a i c now).to_dict) ∧
    (∀ s n e now,
      (LibrarySystem.add_member s n e now).snd.person_id = s.next_member_id ∧
      (LibrarySystem.add_member s n e now).fst.next_member_id = s.next_member_id + 1) ∧
    (∀ t a i c now,
      (LibrarySystem.add_book (LibrarySystem.mk emptyDoc) t a i c now).snd.book_id = 1 ∧
      (LibrarySystem.add_book (LibrarySystem.mk emptyDoc) t a i c now).snd.is_available = true) := by
  refine ⟨?_, ?_, ?_, ?_, ?_, ?_, ?_⟩
  · intro d hd
    simp [LibrarySystem.mk, get_next_id_from, hd]
  · intro d hd
    simp [LibrarySystem.mk, get_next_id_from, hd]
  · intro d hd
    have hnil : d.books.map Prod.fst ≠ [] := by
      simpa using hd
    obtain ⟨k, hk, hfold, hmax⟩ := foldr_max_attained _ hnil
    refine ⟨k, hk, ?_, hmax⟩
    simp only [LibrarySystem.mk, get_next_id_from, List.isEmpty_eq_true]
    rw [if_neg hnil, hfold]
  · intro d hd
    have hnil : d.members.map Prod.fst ≠ [] := by
      simpa using hd
    obtain ⟨k, hk, hfold, hmax⟩ := foldr_max_attained _ hnil
    refine ⟨k, hk, ?_, hmax⟩
    simp only [LibrarySystem.mk, get_next_id_from, List.isEmpty_eq_true]
    rw [if_neg hnil, hfold]
  · intro s t a i c now
    refine ⟨rfl, rfl, ?_⟩
    exact getk_setk_self _ _ _
  · intro s n e now
    exact ⟨rfl, rfl⟩
  · intro t a i c now
    exact ⟨rfl, rfl⟩

/-- Witness for C8: empty store and the concrete store `wDoc`. -/
theorem c8_id_allocation_witness :
    (LibrarySystem.mk emptyDoc).next_book_id = 1 ∧
    ∃ k ∈ wDoc.books.map Prod.fst,
      (LibrarySystem.mk wDoc).next_book_id = k + 1 ∧
      ∀ k' ∈ wDoc.books.map Prod.fst, k' ≤ k :=
  ⟨c8_id_allocation.1 emptyDoc rfl, c8_id_allocation.2.2.1 wDoc (by decide)⟩

/-! ## C9: persistence round trip -/

theorem decodeOptNat_encodeOptNat (o : Option Nat) :
    decodeOptNat (encodeOptNat o) = some o := by
  cases o <;> rfl

theorem decodeBookRec_encodeBookRec (b : BookRec) :
    decodeBookRec (encodeBookRec b) = some b := by
  cases b with
  | mk id t a i c av bb ad => cases bb <;> rfl

theorem decodeBorrowRec_encodeBorrowRec (r : BorrowRec) :
    decodeBorrowRec (encodeBorrowRec r) = some r := by
  cases r
  rfl

theorem decodeTransRec_encodeTransRec (t : TransRec) :
    decodeTransRec (encodeTransRec t) = some t := by
  cases t
  rfl

theorem decodeList_roundtrip {α : Type} (f : JValue → Option α) (g : α → JValue)
    (h : ∀ a, f (g a) = some a) (xs : List α) :
    decodeList f (xs.map g) = some xs := by
  induction xs with
  | nil => rfl
  | cons x xs ih => simp only [List.map_cons, decodeList, h, ih]

theorem decodeMemberRec_encodeMemberRec (m : MemberRec) :
    decodeMemberRec (encodeMemberRec m) = some m := by
  cases m with
  | mk id n e ca bb cb =>
      simp only [encodeMemberRec, decodeMemberRec,
        decodeList_roundtrip decodeBorrowRec encodeBorrowRec
          decodeBorrowRec_encodeBorrowRec bb]

theorem decodeEntries_roundtrip {α : Type} (f : JValue → Option α)
    (g : α → JValue) (idOf : α → Nat) (h : ∀ a, f (g a) = some a)
    (l : List (Nat × α)) (hkeys : ∀ p ∈ l, idOf p.snd = p.fst) :
    decodeEntries f idOf (l.map fun p => (Nat.repr p.fst, g p.snd)) = some l := by
  induction l with
  | nil => rfl
  | cons p rest ih =>
      obtain ⟨k, a⟩ := p
      have hid : idOf a = k := hkeys (k, a) (List.mem_cons_self _ _)
      have hrest := ih (fun q hq => hkeys q (List.mem_cons_of_mem _ hq))
      simp only [List.map_cons, decodeEntries, h, hrest]
      rw [hid]
      simp

/-- C9: persisting a well-keyed store document and loading it back yields an
equivalent document — `_load_data` returns exactly what `_save_data` wrote,
and decoding the written JSON recovers the same books entries, members
entries and transactions list. -/
theorem c9_save_load_roundtrip (d : Document) (hw : WellKeyed d) :
    loadData (saveData (encodeDoc d)) = Except.ok (encodeDoc d) ∧
    decodeDoc (encodeDoc d) = some d := by
  obtain ⟨hb, hm⟩ := hw
  refine ⟨rfl, ?_⟩
  simp only [encodeDoc, decodeDoc,
    decodeEntries_roundtrip decodeBookRec encodeBookRec BookRec.id
      decodeBookRec_encodeBookRec d.books hb,
    decodeEntries_roundtrip decodeMemberRec encodeMemberRec MemberRec.id
      decodeMemberRec_encodeMemberRec d.members hm,
    decodeList_roundtrip decodeTransRec encodeTransRec
      decodeTransRec_encodeTransRec d.transactions]

/-- Witness for C9 at the concrete store `wDoc`. -/
theorem c9_save_load_roundtrip_witness :
    loadData (saveData (encodeDoc wDoc)) = Except.ok (encodeDoc wDoc) ∧
    decodeDoc (encodeDoc wDoc) = some wDoc :=
  c9_save_load_roundtrip wDoc ⟨by decide, by decide⟩

end LibraryApp
